import Mathlib

/-!
Shallow embedding of the technology-detection engine (analyser, provider,
rule model) of the repository, together with theorems settling the frozen
claims about it.

Conventions of the embedding:
* JavaScript strings are modelled through their character lists; the JS
  string primitives used by the source (`split`, `trim`, `startsWith`,
  `includes`, `lastIndexOf`/`substring`) are re-defined below on `List Char`
  so that every definition is executable by the kernel.
* Promises/async are erased: `Provider.readFile` returns `Option String`
  (`none` = the read rejected, for any reason), `Provider.exists` returns
  `Except String Bool` (`error` = the existence check rejected; this is the
  only operation inside `evaluateRule` whose rejection is not caught there).
* JS `Set` objects in the analyser are only ever queried through `has`, so
  they are modelled as `List String` up to membership.
-/

namespace Stack

/-! ### JS string primitives (char-list semantics) -/

/-- JS `str.split(sep)` restricted to a single-character separator:
splits into the (possibly empty) chunks between occurrences of `c`. -/
def splitChar (c : Char) : List Char → List (List Char)
  | [] => [[]]
  | x :: xs =>
    match splitChar c xs with
    | [] => [[]]
    | g :: gs => if x = c then [] :: g :: gs else (x :: g) :: gs

/-- Drop one trailing carriage return, if present. -/
def dropTrailingCR (l : List Char) : List Char :=
  if l.getLast? = some '\r' then l.dropLast else l

/-- Drop one trailing carriage return from every chunk except the last:
only a carriage return directly followed by a line feed belongs to a
`\r?\n` separator; a final chunk's trailing carriage return is kept. -/
def dropSepCR : List (List Char) → List (List Char)
  | [] => []
  | [l] => [l]
  | l :: ls => dropTrailingCR l :: dropSepCR ls

/-- JS `str.split(/\r?\n/)`: split on newlines, each newline consuming one
directly preceding carriage return; a trailing carriage return not
followed by a line feed stays in its chunk. -/
def splitLines (s : String) : List String :=
  (dropSepCR (splitChar '\n' s.data)).map fun l => String.mk l

/-- The ECMAScript WhiteSpace and LineTerminator characters (the set
`trim()` strips and `\s` matches): space, tab, line feed, vertical tab,
form feed, carriage return, no-break space, zero-width no-break space,
the Unicode space separators, and the line and paragraph separators. -/
def jsWhitespace (c : Char) : Bool :=
  c = ' ' || c = '\t' || c = '\n' || c = '\x0b' || c = '\x0c' || c = '\r' ||
  c = '\u00a0' || c = '\ufeff' || c = '\u1680' ||
  (0x2000 ≤ c.toNat && c.toNat ≤ 0x200a) ||
  c = '\u2028' || c = '\u2029' || c = '\u202f' || c = '\u205f' || c = '\u3000'

/-- JS `str.trim()`: strip the JS whitespace characters from both ends. -/
def jsTrim (s : String) : String :=
  String.mk (((s.data.dropWhile jsWhitespace).reverse.dropWhile jsWhitespace).reverse)

/-- Character-list prefix test (executable). -/
def isPfx : List Char → List Char → Bool
  | [], _ => true
  | _ :: _, [] => false
  | a :: as, b :: bs => a == b && isPfx as bs

/-- JS `str.startsWith(p)`. -/
def jsStartsWith (s p : String) : Bool := isPfx p.data s.data

/-- Character-list substring test: does `n` occur contiguously in the list? -/
def hasSub (n : List Char) : List Char → Bool
  | [] => n.isEmpty
  | c :: rest => isPfx n (c :: rest) || hasSub n rest

/-- JS `str.includes(n)`: substring containment. -/
def jsIncludes (s n : String) : Bool := hasSub n.data s.data

/-- JS `str.split(c)[0]`: the part of the string before the first
occurrence of the character `c` (the whole string when `c` is absent). -/
def beforeChar (c : Char) (s : String) : String :=
  String.mk (s.data.takeWhile (· ≠ c))

/-! ### Manifest extractors (src/src/analyser/index.ts) -/

/-- The separator class `[><=!~;\x5b]` of `extractPythonDeps`. -/
def isPySep (c : Char) : Bool :=
  c = '>' || c = '<' || c = '=' || c = '!' || c = '~' || c = ';' || c = '['

/-- The ECMAScript LineTerminator characters, which `.` cannot match. -/
def isLineTerm (c : Char) : Bool :=
  c = '\n' || c = '\r' || c = '\u2028' || c = '\u2029'

/-- JS `l.replace(/#.*$/, '')`: `.` matches no line terminator and `$`
(non-multiline) asserts only at the end of the input, so the pattern
matches exactly at a `#` followed by line-terminator-free text to the end;
the first such `#` is the first `#` of the segment after the last line
terminator, and the replace cuts from it to the end. When that segment has
no `#` (in particular when a line terminator follows every `#`), the
string is left unchanged. -/
def stripComment (s : String) : String :=
  let tail := (s.data.reverse.takeWhile (fun c => !(isLineTerm c))).reverse
  let before := s.data.take (s.data.length - tail.length)
  String.mk (before ++ tail.takeWhile (· ≠ '#'))

/-- `extractPythonDeps`: extract package names from requirements.txt-style
text (split lines; strip comments and trim; drop empty and option lines;
cut at the first version/marker separator; trim; drop empties). -/
def extractPythonDeps (content : String) : List String :=
  ((((splitLines content).map
      (fun l => jsTrim (stripComment l))).filter
      (fun l => !(l == "") && !(jsStartsWith l "-"))).map
      (fun l => jsTrim (String.mk (l.data.takeWhile (fun c => !(isPySep c)))))).filter
      (fun l => !(l == ""))

/-- `extractEnvVarNames`: env-var names from .env-style text (per trimmed,
non-empty, non-comment line: the trimmed part before the first `=`). -/
def extractEnvVarNames (content : String) : List String :=
  ((((splitLines content).map jsTrim).filter
      (fun l => !(l == "") && !(jsStartsWith l "#"))).map
      (fun l => jsTrim (beforeChar '=' l))).filter
      (fun l => !(l == ""))

/-- The inline Dockerfile scan of the analyser, modelled per line: a line
matching `FROM\s+([^\s]+)` from its start yields the captured image with
any `:tag` suffix stripped (`\s` being the JS class). This is an
approximation of the `/^FROM\s+([^\s]+)/gm` scan: a match whose `\s+`
spans a line break, or whose `^` anchors after a lone carriage return, is
not modelled; no theorem below consults this scan's output. -/
def dockerfileFroms (content : String) : List String :=
  (splitLines content).filterMap fun line =>
    if isPfx "FROM".data line.data then
      let rest := line.data.drop 4
      if rest.takeWhile jsWhitespace = [] then none
      else
        let img := (rest.dropWhile jsWhitespace).takeWhile (fun c => !(jsWhitespace c))
        if img = [] then none else some (beforeChar ':' (String.mk img))
    else none

/-! ### Data model (src/src/provider, src/src/payload, rule types) -/

/-- `ProviderFile`: one filesystem entry. -/
structure ProviderFile where
  path : String
  name : String
  isDirectory : Bool
deriving DecidableEq, Repr

/-- `Provider`: the tree-source capability contract. `readFile` rejection is
`none`; `exists` rejection is `Except.error` (the one operation whose
rejection escapes `evaluateRule` uncaught). -/
structure Provider where
  listFiles : String → List ProviderFile
  readFile : String → Option String
  existsFile : String → Except String Bool

/-- `TechType` is a closed string union in the source; modelled as `String`. -/
abbrev TechType := String

/-- `PayloadNode`: one match result `\x7bname, type\x7d` (the optional
`childs` field is never set by the analyser and is omitted). -/
structure PayloadNode where
  name : String
  type : TechType
deriving DecidableEq, Repr

/-- `Payload`: the analyser's result. -/
structure Payload where
  childs : List PayloadNode
deriving DecidableEq, Repr

/-- A `string | RegExp` value. A compiled regular expression is modelled by
its matching function (`test`), a host-runtime behaviour. -/
inductive Pat where
  | lit (s : String)
  | regex (test : String → Bool)

/-- `DepType`: the dependency ecosystems. -/
inductive DepType where
  | npm | python | docker | golang | ruby | rust | php
deriving DecidableEq, Repr

/-- `RuleDependency`: one (ecosystem, name-or-pattern) pair. -/
structure RuleDependency where
  type : DepType
  name : Pat

/-- One `contentPatterns` entry: a target file and its patterns. -/
structure ContentPattern where
  file : String
  patterns : List Pat

/-- `RuleMatch`: the optional match strategies of a rule. -/
structure RuleMatch where
  files : Option (List String) := none
  extensions : Option (List String) := none
  contentPatterns : Option (List ContentPattern) := none

/-- `Rule`: one detection rule (`match` is spelled `match_`, the TS field
name being a Lean keyword). -/
structure Rule where
  id : String
  name : String
  type : TechType
  match_ : Option RuleMatch := none
  dependencies : Option (List RuleDependency) := none
  dotenv : Option (List String) := none

/-- The `m?.files` access of `evaluateRule`. -/
def Rule.filesOf (r : Rule) : Option (List String) := r.match_.bind (·.files)

/-- The `m?.extensions` access of `evaluateRule`. -/
def Rule.extensionsOf (r : Rule) : Option (List String) := r.match_.bind (·.extensions)

/-- The `m?.contentPatterns` access of `evaluateRule`. -/
def Rule.contentPatternsOf (r : Rule) : Option (List ContentPattern) :=
  r.match_.bind (·.contentPatterns)

/-! ### Repository index (analyser step 1) -/

/-- The three shared index sets built by the analyser. -/
structure Index where
  allPaths : List String
  allFileNames : List String
  extensions : List String

/-- The extension recorded for a root-level file name: `dotIdx =
name.lastIndexOf('.')`; when `dotIdx > 0`, `name.substring(dotIdx)`
(leading dot included), else nothing. -/
def extOf (name : String) : Option String :=
  match name.data.reverse.findIdx? (· = '.') with
  | none => none
  | some j =>
    let dotIdx := name.data.length - 1 - j
    if 0 < dotIdx then some (String.mk (name.data.drop dotIdx)) else none

/-- Index construction: list the root recording paths, names and file
extensions; for each root directory list its children recording their paths
and names; for each directory child list its children once more recording
only their paths. The JS sets are queried only through `has`, so the
per-directory interleaving of insertions is flattened here. -/
def buildIndex (prov : Provider) : Index :=
  let rootFiles := prov.listFiles "."
  let dirs := (rootFiles.filter (·.isDirectory)).map (·.name)
  let children := (dirs.map (fun d => prov.listFiles d)).flatten
  let grandPaths :=
    ((children.filter (·.isDirectory)).map
      (fun c => (prov.listFiles c.path).map (·.path))).flatten
  { allPaths := rootFiles.map (·.path) ++ children.map (·.path) ++ grandPaths
    allFileNames := rootFiles.map (·.name) ++ children.map (·.name)
    extensions := (rootFiles.filter (fun f => !f.isDirectory)).filterMap (fun f => extOf f.name) }

/-! ### Content cache (analyser step 2) -/

/-- The content cache: an insertion-ordered map from path to
`text | absent`. -/
abbrev Cache := List (String × Option String)

/-- `contentCache.get` preceded by `contentCache.has`. -/
def cacheLookup (cache : Cache) (p : String) : Option (Option String) :=
  match cache.find? (fun e => e.1 == p) with
  | some e => some e.2
  | none => none

/-- `readCached`: return the cached value when present; otherwise read
through the provider, cache the text on success and `none` on failure. The
third component records whether a provider read was performed. -/
def readCached (readFile : String → Option String) (p : String) (cache : Cache) :
    Option String × Cache × Bool :=
  match cacheLookup cache p with
  | some v => (v, cache, false)
  | none =>
    match readFile p with
    | some content => (some content, cache ++ [(p, some content)], true)
    | none => (none, cache ++ [(p, none)], true)

/-- Run a sequence of `readCached` requests, returning the per-request
results, the final cache, and the list of paths read through the provider,
in order. -/
def runReads (readFile : String → Option String) :
    List String → Cache → List (Option String) × Cache × List String
  | [], cache => ([], cache, [])
  | p :: ps, cache =>
    let r := readCached readFile p cache
    let rest := runReads readFile ps r.2.1
    (r.1 :: rest.1, rest.2.1, (if r.2.2 then [p] else []) ++ rest.2.2)

/-! ### Rule evaluation (evaluateRule, src/src/analyser/index.ts 242-307) -/

/-- The marker-file loop of strategy 1: per listed name, hit when the name
is in the root-name set or the path set, otherwise ask the tree source; an
existence-check rejection propagates. -/
def checkFiles (rootNames allPaths : List String) (existsFile : String → Except String Bool) :
    List String → Except String Bool
  | [] => .ok false
  | f :: fs =>
    if rootNames.contains f || allPaths.contains f then .ok true
    else
      match existsFile f with
      | .error e => .error e
      | .ok true => .ok true
      | .ok false => checkFiles rootNames allPaths existsFile fs

/-- Strategy 1 (marker files) of a rule, `.ok false` when undeclared. -/
def filesCheck (rule : Rule) (rootNames allPaths : List String)
    (existsFile : String → Except String Bool) : Except String Bool :=
  match rule.filesOf with
  | some fs => checkFiles rootNames allPaths existsFile fs
  | none => .ok false

/-- Strategy 2 (extensions) of a rule: some listed extension is in the
index's extension set; `false` when undeclared. -/
def extCheck (rule : Rule) (extensions : List String) : Bool :=
  match rule.extensionsOf with
  | some exts => exts.any (fun ext => extensions.contains ext)
  | none => false

/-- One pattern against one content: substring containment for a literal,
the regular expression's `test` for a pattern. -/
def patTest (content : String) : Pat → Bool
  | .lit s => jsIncludes content s
  | .regex t => t content

/-- Strategy 3 (content patterns) of a rule: per declared pair read the
target through the cache, skip it when absent, else try every pattern;
`false` when undeclared. -/
def contentCheck (rule : Rule) (readC : String → Option String) : Bool :=
  match rule.contentPatternsOf with
  | some cps =>
    cps.any fun cp =>
      match readC cp.file with
      | none => false
      | some content => cp.patterns.any (patTest content)
  | none => false

/-- One dependency pair against one ecosystem's declared-name list (the
empty list is skipped by an explicit guard in the source). -/
def depMatch (pkgList : List String) (target : Pat) : Bool :=
  if pkgList.isEmpty then false
  else
    pkgList.any fun pkg =>
      match target with
      | .lit n => pkg == n
      | .regex t => t pkg

/-- Strategy 4 (dependencies) of a rule; `false` when undeclared. -/
def depCheck (rule : Rule) (depsMap : DepType → List String) : Bool :=
  match rule.dependencies with
  | some deps => deps.any fun dep => depMatch (depsMap dep.type) dep.name
  | none => false

/-- The prefix loop of strategy 5: some discovered name starts with some
declared prefix. -/
def checkDotenv (envVarNames : List String) (pfxs : List String) : Bool :=
  pfxs.any fun pfx => envVarNames.any fun v => jsStartsWith v pfx

/-- Strategy 5 (dotenv prefixes) of a rule: guarded by a non-empty
discovered-name sequence; `false` when undeclared. -/
def dotenvCheck (rule : Rule) (envVarNames : List String) : Bool :=
  match rule.dotenv with
  | some pfxs => decide (0 < envVarNames.length) && checkDotenv envVarNames pfxs
  | none => false

/-- `evaluateRule`: the five strategies in their fixed order, returning at
the first satisfied one; only strategy 1 can reject (through the tree
source's existence check). -/
def evaluateRule (rule : Rule) (allPaths extensions rootNames : List String)
    (readC : String → Option String) (existsFile : String → Except String Bool)
    (depsMap : DepType → List String) (envVarNames : List String) : Except String Bool :=
  let rest : Except String Bool :=
    if extCheck rule extensions then .ok true
    else if contentCheck rule readC then .ok true
    else if depCheck rule depsMap then .ok true
    else if dotenvCheck rule envVarNames then .ok true
    else .ok false
  match filesCheck rule rootNames allPaths existsFile with
  | .error e => .error e
  | .ok true => .ok true
  | .ok false => rest

/-! ### Dependency table and env names (analyser steps 3-4) -/

/-- The `if (c)` guards of the analyser test JS string truthiness: a read
must succeed *and* be non-empty to be used. -/
def readTruthy (prov : Provider) (f : String) : Option String :=
  match prov.readFile f with
  | some c => if c == "" then none else some c
  | none => none

/-- The extractors whose bodies delegate to host-runtime JSON parsing or
unanchored regular-expression search (`extractNpmDeps`, `extractRubyDeps`,
`extractGoDeps`, `extractCargoDeps`, `extractComposerDeps`,
`extractDockerImages`, and the pyproject `[project]` dependencies-section
regular expression). They are kept abstract: no claim depends on their
output, and every theorem about the analyser holds for all of them. -/
structure Extractors where
  npm : String → List String
  ruby : String → List String
  golang : String → List String
  cargo : String → List String
  composer : String → List String
  dockerImages : String → List String
  pyprojectSection : String → Option String

/-- The conventional Python requirement filenames consulted. -/
def pythonReqFiles : List String :=
  ["requirements.txt", "requirements-dev.txt", "requirements-base.txt"]

/-- The conventional compose filenames consulted. -/
def composeFiles : List String :=
  ["docker-compose.yml", "docker-compose.yaml", "compose.yml", "compose.yaml"]

/-- The conventional dotenv filenames consulted. -/
def envFiles : List String :=
  [".env", ".env.local", ".env.example", ".env.development", ".env.production", ".env.test"]

/-- Step 3 of the analyser: the dependency table, built by reading each
ecosystem's conventional filenames through the cache and running the
matching extractor on each (truthy) content. -/
def buildDeps (prov : Provider) (ext : Extractors) : DepType → List String :=
  let npmL := match readTruthy prov "package.json" with
    | some c => ext.npm c
    | none => []
  let pyReq := (pythonReqFiles.map fun f =>
    match readTruthy prov f with
    | some c => extractPythonDeps c
    | none => []).flatten
  let pyProj := match readTruthy prov "pyproject.toml" with
    | some c =>
      match ext.pyprojectSection c with
      | some sec => extractPythonDeps (sec.replace "\"" "")
      | none => []
    | none => []
  let rubyL := match readTruthy prov "Gemfile" with
    | some c => ext.ruby c
    | none => []
  let goL := match readTruthy prov "go.mod" with
    | some c => ext.golang c
    | none => []
  let rustL := match readTruthy prov "Cargo.toml" with
    | some c => ext.cargo c
    | none => []
  let phpL := match readTruthy prov "composer.json" with
    | some c => ext.composer c
    | none => []
  let dockerL := (composeFiles.map fun f =>
    match readTruthy prov f with
    | some c => ext.dockerImages c
    | none => []).flatten
  let dockerFrom := match readTruthy prov "Dockerfile" with
    | some c => dockerfileFroms c
    | none => []
  fun t =>
    match t with
    | .npm => npmL
    | .python => pyReq ++ pyProj
    | .ruby => rubyL
    | .golang => goL
    | .rust => rustL
    | .php => phpL
    | .docker => dockerL ++ dockerFrom

/-- Step 4 of the analyser: env-var names across the conventional dotenv
filenames. -/
def buildEnvVarNames (prov : Provider) : List String :=
  (envFiles.map fun f =>
    match readTruthy prov f with
    | some c => extractEnvVarNames c
    | none => []).flatten

/-! ### The analyser (steps 1-5) -/

/-- One rule's evaluation in the context the analyser builds (the shared
index, cache view, dependency table and env names of one scan). -/
def ctxEval (prov : Provider) (ext : Extractors) (rule : Rule) : Except String Bool :=
  let idx := buildIndex prov
  evaluateRule rule idx.allPaths idx.extensions idx.allFileNames
    prov.readFile prov.existsFile (buildDeps prov ext) (buildEnvVarNames prov)

/-- The warning emitted when a rule's evaluation rejects. -/
def warnMsg (id e : String) : String := "Rule \"" ++ id ++ "\" threw: " ++ e

/-- `.ok true` recogniser for rule outcomes. -/
def isOkTrue : Except String Bool → Bool
  | .ok true => true
  | _ => false

/-- Step 5 of the analyser: evaluate every rule in catalog order, pushing a
node per `.ok true`, and per rejection a warning naming the rule's id. -/
def analyserLoop (eval : Rule → Except String Bool) :
    List Rule → List PayloadNode × List String
  | [] => ([], [])
  | rule :: rest =>
    let r := analyserLoop eval rest
    match eval rule with
    | .ok true => (⟨rule.name, rule.type⟩ :: r.1, r.2)
    | .ok false => r
    | .error e => (r.1, warnMsg rule.id e :: r.2)

/-- `analyser`: the whole scan — build the index, the dependency table and
the env names, evaluate every rule, return the payload (and the warnings
emitted for rejected rules). -/
def analyser (prov : Provider) (ext : Extractors) (rules : List Rule) :
    Payload × List String :=
  let r := analyserLoop (ctxEval prov ext) rules
  (⟨r.1⟩, r.2)

/-! ### Claim C9 — the line-oriented Python extractor -/

/-- The claimed per-line description of the Python requirements extractor,
which strips a trailing `#`-comment unconditionally (cut at the line's
first `#`) before trimming. The program's `replace(/#.*$/, '')` cannot do
that when a line terminator follows the `#`, so this description is
refuted below. -/
def pyLineNameClaimed (line : String) : Option String :=
  let l := jsTrim (String.mk (line.data.takeWhile (· ≠ '#')))
  if (l == "") || jsStartsWith l "-" then none
  else
    let nm := jsTrim (String.mk (l.data.takeWhile (fun c => !(isPySep c))))
    if nm == "" then none else some nm

/-- The amended per-line description: apply the JS comment replace
(`stripComment`, a no-op when a line terminator follows every `#`) and
trim; drop the line when empty or starting with `-`; otherwise the name is
the trimmed prefix before the first occurrence of a separator character,
kept only when non-empty. -/
def pyLineName (line : String) : Option String :=
  let l := jsTrim (stripComment line)
  if (l == "") || jsStartsWith l "-" then none
  else
    let nm := jsTrim (String.mk (l.data.takeWhile (fun c => !(isPySep c))))
    if nm == "" then none else some nm

/-- Counterexample to C9 as stated: on the content `flask # web` followed
by a carriage return with no line feed, the final line keeps the carriage
return, `replace(/#.*$/, '')` cannot match (`.` excludes the carriage
return and `$` asserts only at end of input), so the program keeps the
comment — while the claimed unconditional per-line stripping would cut at
the `#`. -/
theorem extractPythonDeps_cr_comment_counterexample :
    extractPythonDeps "flask # web\r" = ["flask # web"] ∧
    (splitLines "flask # web\r").filterMap pyLineNameClaimed = ["flask"] := by
  constructor <;> rfl

theorem chain_filterMap {α : Type} (f g : α → α) (p q : α → Bool) (xs : List α) :
    (((xs.map f).filter p).map g).filter q
      = xs.filterMap (fun x =>
          if p (f x) then (if q (g (f x)) then some (g (f x)) else none) else none) := by
  induction xs with
  | nil => rfl
  | cons x xs ih =>
    by_cases h1 : p (f x) = true <;> by_cases h2 : q (g (f x)) = true <;>
      simp [List.filter_cons, h1, h2, ih]

/-- C9 (amended): for every input text, the Python requirements extractor
returns, in line order, exactly the per-line names described by
`pyLineName`: one name per line that — after the JS comment replace (which
strips from a `#` only when no line terminator follows it on the line) and
trimming — is non-empty and does not start with `-`, the name being the
trimmed prefix before the first of the characters in the separator class,
kept only when non-empty; a final line retains a carriage return not
followed by a line feed. -/
theorem extractPythonDeps_line_characterisation (content : String) :
    extractPythonDeps content = (splitLines content).filterMap pyLineName := by
  unfold extractPythonDeps
  rw [chain_filterMap]
  apply List.filterMap_congr
  intro x _
  unfold pyLineName
  by_cases h1 : (jsTrim (stripComment x) == "") = true <;>
    by_cases h2 : jsStartsWith (jsTrim (stripComment x)) "-" = true <;>
      simp [h1, h2]

/-! ### Claim C8 — the dotenv-prefix strategy -/

/-- A concrete rule carrying only the `POSTGRES_` dotenv prefix. -/
def pgRule : Rule :=
  { id := "postgres", name := "PostgreSQL", type := "db", dotenv := some ["POSTGRES_"] }

/-- C8: the dotenv strategy of a rule is satisfied iff the discovered
env-var name sequence is non-empty and some discovered name starts with
some declared prefix; `POSTGRES_URL` satisfies the prefix `POSTGRES_` while
`MY_POSTGRES_URL` does not. -/
theorem dotenv_prefix_semantics :
    (∀ (rule : Rule) (pfxs envVarNames : List String), rule.dotenv = some pfxs →
      (dotenvCheck rule envVarNames = true ↔
        envVarNames ≠ [] ∧ ∃ v ∈ envVarNames, ∃ pfx ∈ pfxs, jsStartsWith v pfx = true)) ∧
    dotenvCheck pgRule ["POSTGRES_URL"] = true ∧
    dotenvCheck pgRule ["MY_POSTGRES_URL"] = false := by
  refine ⟨fun rule pfxs envVarNames h => ?_, by decide, by decide⟩
  simp only [dotenvCheck, h, checkDotenv, Bool.and_eq_true, decide_eq_true_eq,
    List.any_eq_true, List.length_pos]
  tauto

/-- Witness for C8 at a concrete rule and env list. -/
theorem dotenv_prefix_semantics_witness :
    dotenvCheck pgRule ["FOO", "POSTGRES_URL"] = true :=
  (dotenv_prefix_semantics.1 pgRule ["POSTGRES_"] ["FOO", "POSTGRES_URL"] rfl).mpr
    ⟨by decide, "POSTGRES_URL", by decide, "POSTGRES_", by decide, by decide⟩

/-! ### Claim C6 — dependency matching -/

/-- The dependency table of a manifest declaring exactly `django` for the
Python ecosystem. -/
def djangoDeps : DepType → List String
  | .python => ["django"]
  | _ => []

/-- A rule depending on the literal Python package `django`. -/
def djangoRule : Rule :=
  { id := "django", name := "Django", type := "framework",
    dependencies := some [⟨.python, .lit "django"⟩] }

/-- A rule depending on the literal Python package `Django` (capitalised). -/
def djangoCapRule : Rule :=
  { id := "django-cap", name := "Django", type := "framework",
    dependencies := some [⟨.python, .lit "Django"⟩] }

/-- C6: a literal dependency pair is satisfied iff some declared name of
that ecosystem is character-for-character equal to it, a pattern pair iff
the pattern's test succeeds on some declared name; the strategy is the
disjunction over the rule's pairs; a manifest declaring `django` satisfies
the literal `django` but not the literal `Django`. -/
theorem dependency_literal_exact :
    (∀ (pkgList : List String) (n : String),
      depMatch pkgList (.lit n) = true ↔ ∃ pkg ∈ pkgList, pkg = n) ∧
    (∀ (pkgList : List String) (t : String → Bool),
      depMatch pkgList (.regex t) = true ↔ ∃ pkg ∈ pkgList, t pkg = true) ∧
    (∀ (rule : Rule) (deps : List RuleDependency) (depsMap : DepType → List String),
      rule.dependencies = some deps →
      (depCheck rule depsMap = true ↔
        ∃ dep ∈ deps, depMatch (depsMap dep.type) dep.name = true)) ∧
    depCheck djangoRule djangoDeps = true ∧
    depCheck djangoCapRule djangoDeps = false := by
  refine ⟨fun pkgList n => ?_, fun pkgList t => ?_,
    fun rule deps depsMap h => ?_, by decide, by decide⟩
  · cases hl : pkgList.isEmpty <;>
      simp_all [depMatch, List.any_eq_true, List.isEmpty_iff]
  · cases hl : pkgList.isEmpty <;>
      simp_all [depMatch, List.any_eq_true, List.isEmpty_iff]
  · simp [depCheck, h, List.any_eq_true]

/-- Witness for C6's quantified parts at a concrete table and rule. -/
theorem dependency_literal_exact_witness :
    depCheck djangoRule djangoDeps = true :=
  (dependency_literal_exact.2.2.1 djangoRule [⟨.python, .lit "django"⟩] djangoDeps rfl).mpr
    ⟨⟨.python, .lit "django"⟩, List.mem_singleton.mpr rfl, by decide⟩

/-! ### Claim C2 — the content cache reads each path at most once -/

theorem cacheLookup_append (cache : Cache) (p : String) (v : Option String) (q : String) :
    cacheLookup (cache ++ [(p, v)]) q =
      match cacheLookup cache q with
      | some x => some x
      | none => if p == q then some v else none := by
  induction cache with
  | nil =>
    by_cases h : p = q
    · simp [cacheLookup, List.find?, h]
    · have hb : (p == q) = false := by simpa using h
      simp [cacheLookup, List.find?, hb, h]
  | cons e cache ih =>
    by_cases h : (e.1 == q) = true <;>
      simp_all [cacheLookup, List.find?_cons, h]

theorem cacheLookup_good {readFile : String → Option String} {cache : Cache}
    (hc : ∀ e ∈ cache, e.2 = readFile e.1) {p : String} {v : Option String}
    (h : cacheLookup cache p = some v) : v = readFile p := by
  unfold cacheLookup at h
  cases hf : cache.find? (fun e => e.1 == p) with
  | none => rw [hf] at h; cases h
  | some e =>
    rw [hf] at h
    cases h
    have hmem := List.mem_of_find?_eq_some hf
    have hpred := List.find?_some hf
    have : e.1 = p := by simpa using hpred
    rw [hc e hmem, this]

theorem readCached_hit {readFile : String → Option String} {cache : Cache} {p : String}
    {v : Option String} (h : cacheLookup cache p = some v) :
    readCached readFile p cache = (v, cache, false) := by
  unfold readCached
  rw [h]

theorem readCached_miss {readFile : String → Option String} {cache : Cache} {p : String}
    (h : cacheLookup cache p = none) :
    readCached readFile p cache = (readFile p, cache ++ [(p, readFile p)], true) := by
  unfold readCached
  rw [h]
  cases readFile p <;> rfl

theorem runReads_general (readFile : String → Option String) (ps : List String)
    (cache : Cache) (hc : ∀ e ∈ cache, e.2 = readFile e.1) :
    (runReads readFile ps cache).1 = ps.map readFile ∧
    (∀ e ∈ (runReads readFile ps cache).2.1, e.2 = readFile e.1) ∧
    ∀ p, ((runReads readFile ps cache).2.2).count p
        = if p ∈ ps ∧ cacheLookup cache p = none then 1 else 0 := by
  induction ps generalizing cache with
  | nil => exact ⟨rfl, hc, fun p => by simp [runReads]⟩
  | cons q ps ih =>
    cases hl : cacheLookup cache q with
    | some v =>
      have hv : v = readFile q := cacheLookup_good hc hl
      obtain ⟨ih1, ih2, ih3⟩ := ih cache hc
      refine ⟨?_, ?_, ?_⟩
      · simp [runReads, readCached_hit hl, ih1, hv]
      · intro e he
        apply ih2
        simpa [runReads, readCached_hit hl] using he
      · intro p
        simp only [runReads, readCached_hit hl]
        simp only [Bool.false_eq_true, if_false, List.nil_append]
        rw [ih3 p]
        by_cases hpq : p = q
        · subst hpq
          simp [hl]
        · simp [List.mem_cons, hpq]
    | none =>
      have hc' : ∀ e ∈ cache ++ [(q, readFile q)], e.2 = readFile e.1 := by
        intro e he
        rcases List.mem_append.mp he with h | h
        · exact hc e h
        · simp only [List.mem_singleton] at h
          subst h
          rfl
      obtain ⟨ih1, ih2, ih3⟩ := ih (cache ++ [(q, readFile q)]) hc'
      refine ⟨?_,?_, ?_⟩
      · simp [runReads, readCached_miss hl, ih1]
      · intro e he
        apply ih2
        simpa [runReads, readCached_miss hl] using he
      · intro p
        simp only [runReads, readCached_miss hl]
        simp only [if_true, List.singleton_append]
        rw [List.count_cons, ih3 p, cacheLookup_append]
        by_cases hpq : p = q
        · subst hpq
          simp [hl]
        · have hqp : (q == p) = false := by
            simpa using fun h => hpq h.symm
          simp only [hqp, hpq, List.mem_cons, false_or, if_false, Nat.add_zero]
          cases hcp : cacheLookup cache p <;> simp [hcp]

/-- C2: running any sequence of cached-read requests from an empty cache,
every request returns exactly the provider's read outcome for its path
(text on success, absent on failure), and the provider is read exactly once
per distinct requested path — never twice. -/
theorem readCached_at_most_once_per_path (readFile : String → Option String)
    (ps : List String) :
    (runReads readFile ps []).1 = ps.map readFile ∧
    ∀ p, ((runReads readFile ps []).2.2).count p = if p ∈ ps then 1 else 0 := by
  have h := runReads_general readFile ps [] (by intro e he; cases he)
  refine ⟨h.1, fun p => ?_⟩
  rw [h.2.2 p]
  by_cases hp : p ∈ ps <;> simp [hp, cacheLookup]

/-! ### Claim C1 — fixed strategy order with short-circuit -/

/-- C1: rule evaluation follows the fixed strategy order (marker files,
extensions, content patterns, dependencies, dotenv prefixes): a rule with
no declared strategy evaluates to false; when a strategy is satisfied and
every earlier declared strategy is not, evaluation returns true — whatever
the data the later strategies would consult — and when no declared strategy
is satisfied it returns false. -/
theorem evaluateRule_strategy_order (rule : Rule)
    (allPaths extensions rootNames : List String) (readC : String → Option String)
    (existsFile : String → Except String Bool) (depsMap : DepType → List String)
    (envVarNames : List String) :
    (rule.filesOf = none ∧ rule.extensionsOf = none ∧ rule.contentPatternsOf = none ∧
        rule.dependencies = none ∧ rule.dotenv = none →
      evaluateRule rule allPaths extensions rootNames readC existsFile depsMap envVarNames
        = .ok false) ∧
    (filesCheck rule rootNames allPaths existsFile = .ok true →
      evaluateRule rule allPaths extensions rootNames readC existsFile depsMap envVarNames
        = .ok true) ∧
    (filesCheck rule rootNames allPaths existsFile = .ok false →
      extCheck rule extensions = true →
      evaluateRule rule allPaths extensions rootNames readC existsFile depsMap envVarNames
        = .ok true) ∧
    (filesCheck rule rootNames allPaths existsFile = .ok false →
      extCheck rule extensions = false → contentCheck rule readC = true →
      evaluateRule rule allPaths extensions rootNames readC existsFile depsMap envVarNames
        = .ok true) ∧
    (filesCheck rule rootNames allPaths existsFile = .ok false →
      extCheck rule extensions = false → contentCheck rule readC = false →
      depCheck rule depsMap = true →
      evaluateRule rule allPaths extensions rootNames readC existsFile depsMap envVarNames
        = .ok true) ∧
    (filesCheck rule rootNames allPaths existsFile = .ok false →
      extCheck rule extensions = false → contentCheck rule readC = false →
      depCheck rule depsMap = false → dotenvCheck rule envVarNames = true →
      evaluateRule rule allPaths extensions rootNames readC existsFile depsMap envVarNames
        = .ok true) ∧
    (filesCheck rule rootNames allPaths existsFile = .ok false →
      extCheck rule extensions = false → contentCheck rule readC = false →
      depCheck rule depsMap = false → dotenvCheck rule envVarNames = false →
      evaluateRule rule allPaths extensions rootNames readC existsFile depsMap envVarNames
        = .ok false) := by
  refine ⟨?_, ?_, ?_, ?_, ?_, ?_, ?_⟩
  · rintro ⟨h1, h2, h3, h4, h5⟩
    simp [evaluateRule, filesCheck, extCheck, contentCheck, depCheck, dotenvCheck,
      h1, h2, h3, h4, h5]
  all_goals intros
  all_goals simp_all [evaluateRule]

/-- Witness for C1: a rule declaring only an extension strategy, satisfied,
evaluates to true. -/
theorem evaluateRule_strategy_order_witness :
    evaluateRule
      { id := "typescript", name := "TypeScript", type := "language",
        match_ := some { extensions := some [".ts"] } }
      [] [".ts"] [] (fun _ => none) (fun _ => .ok false) (fun _ => []) []
      = .ok true :=
  (evaluateRule_strategy_order
      { id := "typescript", name := "TypeScript", type := "language",
        match_ := some { extensions := some [".ts"] } }
      [] [".ts"] [] (fun _ => none) (fun _ => .ok false) (fun _ => []) []).2.2.1
    rfl (by decide)

/-! ### Claim C4 — the analyser's output is the matched rules in order -/

/-- C4: the analyser's payload is exactly the catalog filtered to the rules
whose evaluation returned true, in registration order, each contributing
one `\x7bname, type\x7d` node. -/
theorem analyser_output_characterisation (prov : Provider) (ext : Extractors)
    (rules : List Rule) :
    (analyser prov ext rules).1.childs
      = (rules.filter (fun r => isOkTrue (ctxEval prov ext r))).map
          (fun r => PayloadNode.mk r.name r.type) := by
  show (analyserLoop (ctxEval prov ext) rules).1 = _
  induction rules with
  | nil => rfl
  | cons r rules ih =>
    simp only [analyserLoop, List.filter_cons]
    cases h : ctxEval prov ext r with
    | ok b => cases b <;> simp [isOkTrue, h, ih]
    | error e => simp [isOkTrue, h, ih]

/-! ### Claim C7 — per-rule fault isolation -/

theorem analyserLoop_append (eval : Rule → Except String Bool) (xs ys : List Rule) :
    analyserLoop eval (xs ++ ys)
      = ((analyserLoop eval xs).1 ++ (analyserLoop eval ys).1,
         (analyserLoop eval xs).2 ++ (analyserLoop eval ys).2) := by
  induction xs with
  | nil => simp [analyserLoop]
  | cons x xs ih =>
    simp only [List.cons_append, analyserLoop]
    cases h : eval x with
    | ok b => cases b <;> simp [h, ih]
    | error e => simp [h, ih]

/-- C7: when one rule's evaluation throws, the analyser logs a warning
naming that rule's id, that rule contributes no node, and the payload is
exactly the payload of the catalog without that rule — every other rule's
outcome and position are unaffected. -/
theorem rule_fault_isolated (prov : Provider) (ext : Extractors)
    (pre post : List Rule) (rule : Rule) (e : String)
    (h : ctxEval prov ext rule = .error e) :
    (analyser prov ext (pre ++ rule :: post)).1.childs
        = (analyser prov ext (pre ++ post)).1.childs ∧
    warnMsg rule.id e ∈ (analyser prov ext (pre ++ rule :: post)).2 := by
  have hmid : analyserLoop (ctxEval prov ext) (rule :: post)
      = ((analyserLoop (ctxEval prov ext) post).1,
         warnMsg rule.id e :: (analyserLoop (ctxEval prov ext) post).2) := by
    simp [analyserLoop, h]
  refine ⟨?_, ?_⟩
  · show (analyserLoop (ctxEval prov ext) (pre ++ rule :: post)).1
        = (analyserLoop (ctxEval prov ext) (pre ++ post)).1
    simp [analyserLoop_append, hmid]
  · show warnMsg rule.id e ∈ (analyserLoop (ctxEval prov ext) (pre ++ rule :: post)).2
    simp [analyserLoop_append, hmid]

/-- A provider whose existence checks all reject: the index is empty, so a
marker-file rule must fall through to the (rejecting) existence check. -/
def provThrow : Provider where
  listFiles := fun _ => []
  readFile := fun _ => none
  existsFile := fun _ => .error "boom"

/-- A catalog-free instantiation of the abstract extractors. -/
def extNone : Extractors :=
  ⟨fun _ => [], fun _ => [], fun _ => [], fun _ => [], fun _ => [],
   fun _ => [], fun _ => none⟩

/-- A rule whose marker-file strategy reaches the existence check. -/
def ruleThrow : Rule :=
  { id := "bad", name := "Bad", type := "tool",
    match_ := some { files := some ["marker"] } }

/-- A strategy-free rule used as a neighbour of the throwing rule. -/
def ruleIdle (i : String) : Rule := { id := i, name := i, type := "tool" }

/-- Witness for C7: with a concrete throwing rule between two others, the
payload equals that of the catalog without it and the warning names it. -/
theorem rule_fault_isolated_witness :
    (analyser provThrow extNone [ruleIdle "a", ruleThrow, ruleIdle "b"]).1.childs
        = (analyser provThrow extNone [ruleIdle "a", ruleIdle "b"]).1.childs ∧
    warnMsg "bad" "boom" ∈ (analyser provThrow extNone [ruleIdle "a", ruleThrow, ruleIdle "b"]).2 := by
  have h := rule_fault_isolated provThrow extNone [ruleIdle "a"] [ruleIdle "b"]
    ruleThrow "boom" rfl
  exact ⟨h.1, h.2⟩

/-! ### Claim C3 — which basenames the marker-file name set contains -/

/-- A repository whose only occurrence of the basename `x.t` is at depth 2,
as a child of the root directory `d`. -/
def provDepth2 : Provider where
  listFiles := fun d =>
    if d = "." then [⟨"d", "d", true⟩]
    else if d = "d" then [⟨"d/x.t", "x.t", false⟩]
    else []
  readFile := fun _ => none
  existsFile := fun _ => .ok false

/-- Counterexample to C3: the basename `x.t` occurs only at depth 2 in
`provDepth2`, yet it is a member of the name set the marker-file strategy
consults (the analyser records the names of root-directory children too). -/
theorem depth2_name_in_rootNames :
    "x.t" ∈ (buildIndex provDepth2).allFileNames := by decide

/-- C3 (amended): the name set the marker-file strategy consults contains
exactly the basenames of root entries and of children of root directories
(depth 2); a basename occurring only at depth 3 or deeper is not a member. -/
theorem allFileNames_membership (prov : Provider) (n : String) :
    n ∈ (buildIndex prov).allFileNames ↔
      (∃ f ∈ prov.listFiles ".", f.name = n) ∨
      (∃ f ∈ prov.listFiles ".", f.isDirectory = true ∧
        ∃ c ∈ prov.listFiles f.name, c.name = n) := by
  simp only [buildIndex, List.mem_append, List.mem_map, List.mem_flatten,
    List.mem_filter]
  constructor
  · rintro (⟨f, hf, rfl⟩ | ⟨c, ⟨L, ⟨d, ⟨f, ⟨hf, hd⟩, rfl⟩, rfl⟩, hc⟩, rfl⟩)
    · exact .inl ⟨f, hf, rfl⟩
    · exact .inr ⟨f, hf, hd, c, hc, rfl⟩
  · rintro (⟨f, hf, rfl⟩ | ⟨f, hf, hd, c, hc, rfl⟩)
    · exact .inl ⟨f, hf, rfl⟩
    · exact .inr ⟨c, ⟨prov.listFiles f.name, ⟨f.name, ⟨f, ⟨hf, hd⟩, rfl⟩, rfl⟩, hc⟩, rfl⟩

/-! ### Claim C5 — extension strategy and the index's depth asymmetry -/

theorem buildIndex_ext_mem (prov : Provider) (e : String) :
    e ∈ (buildIndex prov).extensions ↔
      ∃ f ∈ prov.listFiles ".", f.isDirectory = false ∧ extOf f.name = some e := by
  simp only [buildIndex, List.mem_filterMap, List.mem_filter, Bool.not_eq_true']
  constructor
  · rintro ⟨f, ⟨hf, hd⟩, hx⟩
    exact ⟨f, hf, hd, hx⟩
  · rintro ⟨f, hf, hd, hx⟩
    exact ⟨f, ⟨hf, hd⟩, hx⟩

/-- C5: for a rule declaring only an extension strategy, a root-level file
whose name carries a listed extension (dot not first) makes the rule match;
the index's extension set holds exactly the extensions of root-level files,
so a file at depth 2 or 3 contributes nothing to it, and when no listed
extension comes from a root-level file the rule does not match. -/
theorem extension_strategy_depth (prov : Provider) (ext : Extractors) (rule : Rule) :
    (∀ (es : List String) (e : String) (f : ProviderFile),
      rule.filesOf = none → rule.contentPatternsOf = none →
      rule.dependencies = none → rule.dotenv = none →
      rule.extensionsOf = some es → e ∈ es →
      f ∈ prov.listFiles "." → f.isDirectory = false → extOf f.name = some e →
      ctxEval prov ext rule = .ok true) ∧
    (∀ e, e ∈ (buildIndex prov).extensions ↔
      ∃ f ∈ prov.listFiles ".", f.isDirectory = false ∧ extOf f.name = some e) ∧
    (∀ es : List String,
      rule.filesOf = none → rule.contentPatternsOf = none →
      rule.dependencies = none → rule.dotenv = none →
      rule.extensionsOf = some es →
      (∀ e ∈ es, ¬ ∃ f ∈ prov.listFiles ".", f.isDirectory = false ∧ extOf f.name = some e) →
      ctxEval prov ext rule = .ok false) := by
  refine ⟨?_, buildIndex_ext_mem prov, ?_⟩
  · intro es e f h1 h2 h3 h4 h5 he hf hdir hext
    have hfc : filesCheck rule (buildIndex prov).allFileNames (buildIndex prov).allPaths
        prov.existsFile = .ok false := by
      simp [filesCheck, h1]
    have hec : extCheck rule (buildIndex prov).extensions = true := by
      simp only [extCheck, h5, List.any_eq_true]
      refine ⟨e, he, ?_⟩
      have := (buildIndex_ext_mem prov e).mpr ⟨f, hf, hdir, hext⟩
      simpa [List.contains] using this
    simp [ctxEval, evaluateRule, hfc, hec]
  · intro es h1 h2 h3 h4 h5 hnone
    have hfc : filesCheck rule (buildIndex prov).allFileNames (buildIndex prov).allPaths
        prov.existsFile = .ok false := by
      simp [filesCheck, h1]
    have hec : extCheck rule (buildIndex prov).extensions = false := by
      simp only [extCheck, h5]
      refine List.any_eq_false.mpr fun e he => ?_
      have : e ∉ (buildIndex prov).extensions := by
        rw [buildIndex_ext_mem prov e]
        exact hnone e he
      simpa [List.contains] using this
    simp [ctxEval, evaluateRule, hfc, hec, contentCheck, depCheck, dotenvCheck,
      h2, h3, h4]

/-- A repository with one root-level TypeScript file. -/
def provRootTs : Provider where
  listFiles := fun d => if d = "." then [⟨"app.ts", "app.ts", false⟩] else []
  readFile := fun _ => none
  existsFile := fun _ => .ok false

/-- A rule declaring only the `.ts` extension strategy. -/
def tsOnlyRule : Rule :=
  { id := "ts", name := "TS", type := "language",
    match_ := some { extensions := some [".ts"] } }

/-- Witness for C5: the extension-only rule matches the repository whose
root holds `app.ts`. -/
theorem extension_strategy_depth_witness :
    ctxEval provRootTs extNone tsOnlyRule = .ok true :=
  (extension_strategy_depth provRootTs extNone tsOnlyRule).1
    [".ts"] ".ts" ⟨"app.ts", "app.ts", false⟩
    rfl rfl rfl rfl rfl (by decide) (by simp [provRootTs]) rfl (by decide)

/-! ### Claim C10 — an unavailable tree source yields zero matches -/

theorem buildIndex_empty (prov : Provider) (h1 : prov.listFiles "." = []) :
    buildIndex prov = ⟨[], [], []⟩ := by
  simp [buildIndex, h1]

theorem readTruthy_none (prov : Provider) (h2 : ∀ p, prov.readFile p = none) (f : String) :
    readTruthy prov f = none := by
  simp [readTruthy, h2]

theorem buildDeps_empty (prov : Provider) (ext : Extractors)
    (h2 : ∀ p, prov.readFile p = none) (t : DepType) :
    buildDeps prov ext t = [] := by
  cases t <;>
    simp [buildDeps, readTruthy_none prov h2, pythonReqFiles, composeFiles]

theorem buildEnvVarNames_empty (prov : Provider) (h2 : ∀ p, prov.readFile p = none) :
    buildEnvVarNames prov = [] := by
  simp [buildEnvVarNames, readTruthy_none prov h2, envFiles]

theorem checkFiles_allFalse (existsFile : String → Except String Bool)
    (he : ∀ f, existsFile f = .ok false) (fs : List String) :
    checkFiles [] [] existsFile fs = .ok false := by
  induction fs with
  | nil => rfl
  | cons f fs ih => simp [checkFiles, he f, ih]

theorem evaluateRule_all_empty (rule : Rule) (readF : String → Option String)
    (existsFile : String → Except String Bool) (dm : DepType → List String)
    (hr : ∀ p, readF p = none) (he : ∀ f, existsFile f = .ok false)
    (hd : ∀ t, dm t = []) :
    evaluateRule rule [] [] [] readF existsFile dm [] = .ok false := by
  have hfc : filesCheck rule [] [] existsFile = .ok false := by
    cases h : rule.filesOf with
    | none => simp [filesCheck, h]
    | some fs => simp [filesCheck, h, checkFiles_allFalse existsFile he fs]
  have hec : extCheck rule [] = false := by
    cases h : rule.extensionsOf with
    | none => simp [extCheck, h]
    | some es =>
      simp only [extCheck, h]
      exact List.any_eq_false.mpr fun e _ => by simp
  have hcc : contentCheck rule readF = false := by
    cases h : rule.contentPatternsOf with
    | none => simp [contentCheck, h]
    | some cps =>
      simp only [contentCheck, h]
      refine List.any_eq_false.mpr fun cp _ => ?_
      simp [hr cp.file]
  have hdc : depCheck rule dm = false := by
    cases h : rule.dependencies with
    | none => simp [depCheck, h]
    | some deps =>
      simp only [depCheck, h]
      refine List.any_eq_false.mpr fun dep _ => ?_
      simp [depMatch, hd dep.type]
  have hvc : dotenvCheck rule [] = false := by
    cases h : rule.dotenv with
    | none => simp [dotenvCheck, h]
    | some ps => simp [dotenvCheck, h]
  simp [evaluateRule, hfc, hec, hcc, hdc, hvc]

/-- C10: when listing the root yields nothing, every read fails and every
existence check is false, the analyser completes (it is total, and no rule
rejects) with an empty match sequence and no warnings, for every rule
catalog. -/
theorem empty_root_scan_empty (prov : Provider) (ext : Extractors) (rules : List Rule)
    (h1 : prov.listFiles "." = [])
    (h2 : ∀ p, prov.readFile p = none)
    (h3 : ∀ p, prov.existsFile p = .ok false) :
    analyser prov ext rules = (⟨[]⟩, []) := by
  have heval : ∀ rule, ctxEval prov ext rule = .ok false := by
    intro rule
    unfold ctxEval
    rw [buildIndex_empty prov h1, buildEnvVarNames_empty prov h2]
    exact evaluateRule_all_empty rule prov.readFile prov.existsFile
      (buildDeps prov ext) h2 h3 (buildDeps_empty prov ext h2)
  have hloop : analyserLoop (ctxEval prov ext) rules = ([], []) := by
    induction rules with
    | nil => rfl
    | cons r rs ih => simp [analyserLoop, heval r, ih]
  simp [analyser, hloop]

/-- A provider over a missing root: empty listings, failing reads,
false existence checks. -/
def provMissing : Provider where
  listFiles := fun _ => []
  readFile := fun _ => none
  existsFile := fun _ => .ok false

/-- Witness for C10: a concrete catalog over the missing root scans to the
empty payload. -/
theorem empty_root_scan_empty_witness :
    analyser provMissing extNone
      [tsOnlyRule, pgRule, djangoRule,
       { id := "m", name := "M", type := "tool", match_ := some { files := some ["Makefile"] } }]
      = (⟨[]⟩, []) :=
  empty_root_scan_empty provMissing extNone _ rfl (fun _ => rfl) (fun _ => rfl)

end Stack
